import Mathlib

/-!
Shallow embedding of the crypto-pulse-minions market-data pipeline.

Ingestion side (src/services/binance.js): raw frame dispatch
(`handleMessage`), the trade publisher (`processTrade`), and the kline
publisher (`processKline`), together with the module-level interval set
and the `highPrices` / `lowPrices` extrema maps.

Consumption side (src/minion/hopper-mq.js): the queue message handler
(`handleMessage`) that decodes the envelope and routes the embedded
canonical event to the trade / kline time-series writers.

Modelling conventions: JavaScript numbers appear in this code only
through comparisons, `Math.max` / `Math.min` and the `Infinity`
sentinels, so they are embedded as exact extended rationals (`JNum`)
with an explicit `nan` value; object property tables keyed by the
stringified interval are embedded as `String → Option JNum`, where
`none` is JavaScript's `undefined`; serialization (`JSON.stringify` /
`JSON.parse`) of well-formed events is embedded as the identity, so
queue payloads carry the structured event; asynchronous sink outcomes
(queue-enqueue callbacks, redis promise resolution) are passed in as
explicit `Outcome` oracles and the counter / log effects of their
callbacks are applied synchronously; code that can throw is embedded
with `Except`.
-/

/-- JavaScript number values as this pipeline uses them: an exact
rational, the two infinities (`Infinity` / `-Infinity` sentinels of the
extrema maps), and `NaN` (produced e.g. by `Math.max(undefined, x)`). -/
inductive JNum where
  | nan
  | ninf
  | num (q : ℚ)
  | pinf
deriving DecidableEq

/-- JavaScript strict `<` on numbers: every comparison with `NaN` is
false, `-Infinity` is below every non-`NaN` value, `Infinity` above. -/
def JNum.ltB : JNum → JNum → Bool
  | JNum.ninf, JNum.num _ => true
  | JNum.ninf, JNum.pinf => true
  | JNum.num a, JNum.num b => decide (a < b)
  | JNum.num _, JNum.pinf => true
  | _, _ => false

/-- `Math.max`: `NaN` if either argument is `NaN`, otherwise the larger
argument. -/
def jmax (a b : JNum) : JNum :=
  match a, b with
  | JNum.nan, _ => JNum.nan
  | _, JNum.nan => JNum.nan
  | x, y => if JNum.ltB x y then y else x

/-- `Math.min`: `NaN` if either argument is `NaN`, otherwise the smaller
argument. -/
def jmin (a b : JNum) : JNum :=
  match a, b with
  | JNum.nan, _ => JNum.nan
  | _, JNum.nan => JNum.nan
  | x, y => if JNum.ltB y x then y else x

/-- Reading a possibly-missing object property in a numeric position:
`undefined` coerces to `NaN` (e.g. `Math.max(undefined, p)`). -/
def jsCoerce : Option JNum → JNum
  | none => JNum.nan
  | some v => v

/-- JavaScript `x > cur` where `cur` may be `undefined`: false on
`undefined` (the comparison yields `NaN` ordering, hence false). -/
def jsGtO (x : JNum) (cur : Option JNum) : Bool :=
  match cur with
  | none => false
  | some v => JNum.ltB v x

/-- JavaScript `x < cur` where `cur` may be `undefined`. -/
def jsLtO (x : JNum) (cur : Option JNum) : Bool :=
  match cur with
  | none => false
  | some v => JNum.ltB x v

/-- A member of the interval set: a finite window size in seconds, or
`none` for the sentinel `Infinity` interval. -/
abbrev JInterval := Option ℕ

/-- The frozen interval array of src/services/binance.js line 35:
`[5, 10, 15, 30, 60, 900, 1800, 3600, 86400, 604800, 2592000, 7776000,
15552000, 31536000, Infinity]`. -/
def intervalList : List JInterval :=
  [some 5, some 10, some 15, some 30, some 60, some 900, some 1800, some 3600,
   some 86400, some 604800, some 2592000, some 7776000, some 15552000,
   some 31536000, none]

/-- `timestamp % interval` for a natural timestamp: for a finite
interval this is ordinary remainder; for `Infinity` JavaScript returns
the (finite, non-negative) timestamp itself. -/
def tsMod (t : ℕ) (i : JInterval) : ℕ :=
  match i with
  | none => t
  | some n => t % n

/-- The string a JavaScript object key coerces an interval to:
`String(5) = "5"`, `String(Infinity) = "Infinity"`. -/
def jsKey (i : JInterval) : String :=
  match i with
  | none => "Infinity"
  | some n => toString n

/-- An object used as a table from interval keys to numbers; `none` is
an absent property (`undefined`). -/
abbrev PriceMap := String → Option JNum

/-- The entries built by line 40 of src/services/binance.js:
`intervals.map(interval => [interval, interval === Infinity ? -Infinity
: Infinity])`. Note the single shared initializer expression. -/
def initEntries : List (String × JNum) :=
  intervalList.map (fun i => (jsKey i, if i = none then JNum.ninf else JNum.pinf))

/-- `Object.fromEntries` over `initEntries`: the common initial value of
both price maps. -/
def initialPriceMap : PriceMap := fun k =>
  (initEntries.find? (fun e => decide (e.1 = k))).map (fun e => e.2)

/-- The module-level `highPrices` object at process start. Both maps are
destructured from `Array.from({length: …}, () => Object.fromEntries(…))`,
i.e. from the same initializer. -/
def highPrices : PriceMap := initialPriceMap

/-- The module-level `lowPrices` object at process start. -/
def lowPrices : PriceMap := initialPriceMap

/-- The pair of mutable extrema tables. -/
structure ExtremaState where
  high : PriceMap
  low : PriceMap

/-- The extrema state at process start. -/
def initState : ExtremaState := { high := highPrices, low := lowPrices }

/-- Pointwise update of a price table at one key. -/
def updateMap (f : PriceMap) (k : String) (v : Option JNum) : PriceMap :=
  fun k2 => if k2 = k then v else f k2

/-- One iteration of the trade sampling loop (src/services/binance.js
lines 169-174): when `timestamp % interval === 0`, set
`highPrices[interval] = Math.max(highPrices[interval], price)` and
`lowPrices[interval] = Math.min(lowPrices[interval], price)`. -/
def tradeSampleStep (ts : ℕ) (price : ℚ) (st : ExtremaState) (i : JInterval) :
    ExtremaState :=
  if tsMod ts i = 0 then
    { high := updateMap st.high (jsKey i)
        (some (jmax (jsCoerce (st.high (jsKey i))) (JNum.num price)))
    , low := updateMap st.low (jsKey i)
        (some (jmin (jsCoerce (st.low (jsKey i))) (JNum.num price))) }
  else st

/-- The whole trade sampling loop: `for (const interval of intervals)`. -/
def tradeExtrema (ts : ℕ) (price : ℚ) (st : ExtremaState) : ExtremaState :=
  intervalList.foldl (tradeSampleStep ts price) st

/-- A dynamically-typed interval label as carried by a kline frame's `i`
field: either a string (every real Binance label, e.g. "1m") or a
number. -/
inductive JVal where
  | str (s : String)
  | num (n : JInterval)
deriving DecidableEq

/-- The string a `JVal` coerces to in a template literal or object key. -/
def jsValStr : JVal → String
  | JVal.str s => s
  | JVal.num n => jsKey n

/-- The kline extrema update (src/services/binance.js lines 277-287):
`intervals.findIndex(interval => interval === klineData.i)` guards the
update; strict equality means only a number that is a member of the
interval array matches. Inside the guard, the current values are read
once and `klineData.h` / `klineData.l` overwrite them only under strict
`>` / `<`. -/
def klineExtrema (lab : JVal) (h l : ℚ) (st : ExtremaState) : ExtremaState :=
  match lab with
  | JVal.str _ => st
  | JVal.num n =>
    if n ∈ intervalList then
      { high := updateMap st.high (jsKey n)
          (if jsGtO (JNum.num h) (st.high (jsKey n)) then some (JNum.num h)
           else st.high (jsKey n))
      , low := updateMap st.low (jsKey n)
          (if jsLtO (JNum.num l) (st.low (jsKey n)) then some (JNum.num l)
           else st.low (jsKey n)) }
    else st

/-- One extrema-affecting event, as sampled by the tracker. -/
inductive MarketOp where
  | trade (ts : ℕ) (p : ℚ)
  | kline (lab : JVal) (h l : ℚ)

/-- Apply one event's extrema update. -/
def applyOp (st : ExtremaState) (op : MarketOp) : ExtremaState :=
  match op with
  | MarketOp.trade ts p => tradeExtrema ts p st
  | MarketOp.kline lab h l => klineExtrema lab h l st

/-- Run a sequence of extrema updates. -/
def runOps (st : ExtremaState) (ops : List MarketOp) : ExtremaState :=
  ops.foldl applyOp st

/-- Order used to state that a tracked high never narrows: the entry is
unchanged, or both old and new are present and strictly increased. -/
def optLe (a b : Option JNum) : Prop :=
  a = b ∨ ∃ x y, a = some x ∧ b = some y ∧ JNum.ltB x y = true

/-- Dual order for the tracked low. -/
def optGe (a b : Option JNum) : Prop :=
  a = b ∨ ∃ x y, a = some x ∧ b = some y ∧ JNum.ltB y x = true

/-- States whose interval-keyed entries are all present; holds at
process start and is preserved by every sampling operation. -/
def goodState (st : ExtremaState) : Prop :=
  ∀ i ∈ intervalList, (st.high (jsKey i)).isSome ∧ (st.low (jsKey i)).isSome

/-- A raw Binance trade frame's fields as used by `processTrade`:
`e` event type, `E` event time (epoch ms), `s` symbol, `t` trade id,
`p` price, `q` quantity, `b`/`a` buyer and seller order ids, `T` trade
time, `m` is-buyer-market-maker. `p` and `q` carry the value
`parseFloat` yields on the wire string. -/
structure TradeFrame where
  e : String
  E : ℕ
  s : String
  t : ℕ
  p : ℚ
  q : ℚ
  b : ℕ
  a : ℕ
  T : ℕ
  m : Bool
deriving DecidableEq

/-- `process.pid`, fixed in the model; no claim depends on its value. -/
def processPid : ℕ := 0

/-- The frozen canonical trade record built by `processTrade`. -/
structure TradeObject where
  subId : ℕ
  exchange : String
  eventType : String
  eventTime : ℕ
  symbol : String
  tradeId : ℕ
  price : ℚ
  quantity : ℚ
  buyerOrderId : ℕ
  sellerOrderId : ℕ
  tradeTime : ℕ
  isBuyerMarketMaker : Bool
  timestamp : ℕ
deriving DecidableEq

/-- The `tradeObject` literal of src/services/binance.js lines 177-191. -/
def mkTradeObject (tr : TradeFrame) : TradeObject :=
  { subId := processPid
  , exchange := "binance"
  , eventType := tr.e
  , eventTime := tr.E
  , symbol := tr.s
  , tradeId := tr.t
  , price := tr.p
  , quantity := tr.q
  , buyerOrderId := tr.b
  , sellerOrderId := tr.a
  , tradeTime := tr.T
  , isBuyerMarketMaker := tr.m
  , timestamp := tr.E }

/-- The nested `k` object of a raw Binance kline frame. The interval
field `i` is dynamically typed (`JVal`): on the real wire it is a
string label such as "1m". -/
structure KlineData where
  t : ℕ
  s : String
  i : JVal
  o : ℚ
  h : ℚ
  l : ℚ
  c : ℚ
  v : ℚ
  n : ℕ
  x : Bool
  q : ℚ
  V : ℚ
  T : ℕ
deriving DecidableEq

/-- A raw Binance kline frame: outer event type `e` and payload `k`. -/
structure KlineFrame where
  e : String
  k : KlineData
deriving DecidableEq

/-- The frozen canonical kline record built by `processKline`. -/
structure KlineObject where
  subId : ℕ
  exchange : String
  eventType : String
  eventTime : ℕ
  symbol : String
  interval : JVal
  «open» : ℚ
  high : ℚ
  low : ℚ
  close : ℚ
  volume : ℚ
  trades : ℕ
  isFinal : Bool
  quoteAssetVolume : ℚ
  baseAssetVolume : ℚ
  timestamp : ℕ
deriving DecidableEq

/-- The `klineObject` literal of src/services/binance.js lines 257-274. -/
def mkKlineObject (kf : KlineFrame) : KlineObject :=
  { subId := processPid
  , exchange := "binance"
  , eventType := kf.e
  , eventTime := kf.k.t
  , symbol := kf.k.s
  , interval := kf.k.i
  , «open» := kf.k.o
  , high := kf.k.h
  , low := kf.k.l
  , close := kf.k.c
  , volume := kf.k.v
  , trades := kf.k.n
  , isFinal := kf.k.x
  , quoteAssetVolume := kf.k.q
  , baseAssetVolume := kf.k.V
  , timestamp := kf.k.T }

/-- A serialized canonical event as carried on the durable queue;
serialization of well-formed records is embedded as the identity. -/
inductive QueuePayload where
  | trade (t : TradeObject)
  | kline (k : KlineObject)
deriving DecidableEq

/-- The `eventType` property the consumer dispatches on. -/
def eventTypeOf : QueuePayload → String
  | QueuePayload.trade t => t.eventType
  | QueuePayload.kline k => k.eventType

/-- Modelled from the spec: the durable queue name `env.wsBinance`
comes from the environment module (src/env, not present under src);
its concrete value is irrelevant to every claim. -/
def wsBinance : String := "wsBinance"

/-- The ingestion-side success / failure counters
`[succK, succT, failK, failT]`. -/
structure Counters where
  succK : ℕ
  succT : ℕ
  failK : ℕ
  failT : ℕ
deriving DecidableEq

/-- Counters as reset at a reporting tick. -/
def zeroCounters : Counters := { succK := 0, succT := 0, failK := 0, failT := 0 }

/-- The resolution of one asynchronous sink operation. -/
inductive Outcome where
  | ok
  | fail
deriving DecidableEq

/-- The `{interval, price}` snapshot object written to the extrema
cache keys; `price` is the raw property read, possibly absent. -/
structure SnapObject where
  interval : JInterval
  price : Option JNum
deriving DecidableEq

/-- One observable sink effect of a publish call: a queue enqueue with
priority and delay, the atomic cache append-and-prune group, a plain
cache key write, or an error log line. -/
inductive PubAction where
  | enqueue (queue : String) (payload : QueuePayload) (priority : ℕ) (delay : ℕ)
  | cacheAppendPrune (channel : String) (score : ℕ) (payload : QueuePayload) (cutoff : ℤ)
  | cacheSet (key : String) (snap : SnapObject)
  | logError (msg : String)
deriving DecidableEq

/-- The sliding-window channel for a trade: `trade:<symbol>:binance`. -/
def tradeChannel (sym : String) : String :=
  "trade:" ++ sym ++ ":binance"

/-- The sliding-window channel for a kline:
`kline:<symbol>:<interval>:binance`. -/
def klineChannel (sym : String) (i : JVal) : String :=
  "kline:" ++ sym ++ ":" ++ jsValStr i ++ ":binance"

/-- The extrema snapshot key `high:<interval>:<symbol>:binance`. -/
def highKey (i : JInterval) (sym : String) : String :=
  "high:" ++ jsKey i ++ ":" ++ sym ++ ":binance"

/-- The extrema snapshot key `low:<interval>:<symbol>:binance`. -/
def lowKey (i : JInterval) (sym : String) : String :=
  "low:" ++ jsKey i ++ ":" ++ sym ++ ":binance"

/-- The trade enqueue callback `(err) => { if (err) { failT++;
logger.error(err); } succT++; }` of src/services/binance.js lines
193-199 and 233-239: note that `succT` is incremented on both
outcomes. -/
def tradeEnqueueCb (c : Counters) (o : Outcome) : Counters × List PubAction :=
  match o with
  | Outcome.ok => ({ c with succT := c.succT + 1 }, [])
  | Outcome.fail =>
    ({ c with failT := c.failT + 1, succT := c.succT + 1 },
     [PubAction.logError ("enqueue error")])

/-- The kline enqueue callback of src/services/binance.js lines
290-296, with the same unconditional `succK++`. -/
def klineEnqueueCb (c : Counters) (o : Outcome) : Counters × List PubAction :=
  match o with
  | Outcome.ok => ({ c with succK := c.succK + 1 }, [])
  | Outcome.fail =>
    ({ c with failK := c.failK + 1, succK := c.succK + 1 },
     [PubAction.logError ("enqueue error")])

/-- The snapshot-writing loop of src/services/binance.js lines 212-231:
for every interval whose boundary predicate holds for this trade's
timestamp, one `set` of the high key and one `set` of the low key,
reading the post-sampling extrema state. -/
def snapFor (ts : ℕ) (sym : String) (st1 : ExtremaState) (i : JInterval) :
    List PubAction :=
  if tsMod ts i = 0 then
    [PubAction.cacheSet (highKey i sym)
       { interval := i, price := st1.high (jsKey i) },
     PubAction.cacheSet (lowKey i sym)
       { interval := i, price := st1.low (jsKey i) }]
  else []

def snapActions (ts : ℕ) (sym : String) (st1 : ExtremaState) : List PubAction :=
  intervalList.flatMap (snapFor ts sym st1)

/-- The state, counters and sink-effect trace produced by one publish
call. -/
structure ProcResult where
  st : ExtremaState
  counters : Counters
  trace : List PubAction

/-- `processTrade` (src/services/binance.js lines 165-245): sample the
extrema, enqueue the canonical trade (`{priority: 0, delay: 0}`) with
the buggy counter callback resolved by `q1`, issue the atomic
append-and-prune on the trade channel with cutoff `now - 3600000`; when
the cache group resolves (`cache = ok`) write one high / low snapshot
pair per sampled interval and re-enqueue the same canonical trade with
`delay: 300` (callback resolved by `q2`); when it rejects, log the
error and do neither. -/
def processTrade (tr : TradeFrame) (st : ExtremaState) (c : Counters)
    (q1 : Outcome) (cache : Outcome) (q2 : Outcome) (now : ℕ) : ProcResult :=
  let st1 := tradeExtrema tr.E tr.p st
  let tobj := QueuePayload.trade (mkTradeObject tr)
  let r1 := tradeEnqueueCb c q1
  let cutoff : ℤ := (now : ℤ) - 3600000
  let head := [PubAction.enqueue wsBinance tobj 0 0] ++ r1.2 ++
    [PubAction.cacheAppendPrune (tradeChannel tr.s) tr.E tobj cutoff]
  match cache with
  | Outcome.ok =>
    let r2 := tradeEnqueueCb r1.1 q2
    { st := st1, counters := r2.1,
      trace := head ++ snapActions tr.E tr.s st1 ++
        [PubAction.enqueue wsBinance tobj 0 300] ++ r2.2 }
  | Outcome.fail =>
    { st := st1, counters := r1.1,
      trace := head ++ [PubAction.logError ("Error processing trade")] }

/-- `processKline` (src/services/binance.js lines 253-313): build the
canonical kline, run the guarded extrema update, enqueue with
`delay: 300` through the buggy counter callback, and issue the atomic
append-and-prune on the kline channel; a cache rejection only logs. -/
def processKline (kf : KlineFrame) (st : ExtremaState) (c : Counters)
    (q : Outcome) (cache : Outcome) (now : ℕ) : ProcResult :=
  let kobj := QueuePayload.kline (mkKlineObject kf)
  let st1 := klineExtrema kf.k.i kf.k.h kf.k.l st
  let r1 := klineEnqueueCb c q
  let cutoff : ℤ := (now : ℤ) - 3600000
  { st := st1, counters := r1.1,
    trace := [PubAction.enqueue wsBinance kobj 0 300] ++ r1.2 ++
      [PubAction.cacheAppendPrune (klineChannel kf.k.s kf.k.i) kf.k.T kobj cutoff] ++
      (match cache with
       | Outcome.ok => []
       | Outcome.fail => [PubAction.logError ("Error processing kline")]) }

/-- Test for a cache write of the snapshot pair member for interval
`i` (either the high or the low key carries `i` in its snapshot). -/
def isSnapFor (i : JInterval) (a : PubAction) : Bool :=
  match a with
  | PubAction.cacheSet _ snap => decide (snap.interval = i)
  | _ => false

/-- How many snapshot cache writes for interval `i` a trace holds; a
full pair counts 2 (one high key, one low key). -/
def countSnapPairs (tr : List PubAction) (i : JInterval) : ℕ :=
  tr.countP (isSnapFor i)

/-- Test for any snapshot cache write at all. -/
def isCacheSetB (a : PubAction) : Bool :=
  match a with
  | PubAction.cacheSet _ _ => true
  | _ => false

/-- The delayed duplicate enqueue of the canonical trade (`delay: 300`). -/
def dupEnqueue (tf : TradeFrame) : PubAction :=
  PubAction.enqueue wsBinance (QueuePayload.trade (mkTradeObject tf)) 0 300

/-- How many delayed duplicate enqueues of this trade a trace holds. -/
def countDelayedDup (tr : List PubAction) (tf : TradeFrame) : ℕ :=
  tr.countP (fun a => decide (a = dupEnqueue tf))

/-- The fixed retention window: one hour in milliseconds. -/
def retentionMs : ℕ := 3600000

/-- One ranked entry of a sliding-window cache channel. -/
structure CacheEntry where
  score : ℕ
  payload : QueuePayload
deriving DecidableEq

/-- The atomic `multi().zadd(channel, timestamp, value)
.zremrangebyscore(channel, 0, cutoff).exec()` group, with
`cutoff = Date.now() - 60 * 60 * 1000`: append the entry, then remove
every entry whose score lies in `[0, cutoff]`. Scores are epoch-ms
event times, hence naturals; the cutoff is a possibly negative
integer. -/
def appendPrune (ch : List CacheEntry) (score : ℕ) (p : QueuePayload)
    (now : ℕ) : List CacheEntry :=
  (ch ++ [CacheEntry.mk score p]).filter
    (fun e => ! (decide ((0 : ℤ) ≤ (e.score : ℤ)) &&
                 decide ((e.score : ℤ) ≤ (now : ℤ) - (retentionMs : ℤ))))

/-- The outer queue envelope the consumer decodes: its `data` field
holds the serialized canonical event, or nothing (a falsy `item.data`
makes the handler return early). -/
structure HopperEnvelope where
  data : Option QueuePayload
deriving DecidableEq

/-- Modelled from the spec: the rabbitmq service module
(src/services/rabbitmq, not present under src) wraps each payload given
to `sendQueue` in the outer queue envelope whose `data` field carries
the serialized canonical event, which the consumer then decodes
("decode the outer queue envelope, decode the embedded canonical event
payload"). -/
def mqEnvelope (p : QueuePayload) : HopperEnvelope :=
  { data := some p }

/-- Where the consumer's `handleMessage` sends one delivered message. -/
inductive HopperDispatch where
  | skippedNoData
  | loggedUnsupported
  | toTradeHandler (p : QueuePayload)
  | toKlineHandler (p : QueuePayload)
deriving DecidableEq

/-- The consumer `handleMessage` of src/minion/hopper-mq.js lines
124-139: return early when `item.data` is absent, otherwise look the
embedded event's `eventType` up in the callback table (`kline` →
kline writer, `trade` → trade writer) and log-and-drop anything else. -/
def hopperHandleMessage (m : HopperEnvelope) : HopperDispatch :=
  match m.data with
  | none => HopperDispatch.skippedNoData
  | some p =>
    if eventTypeOf p = "kline" then HopperDispatch.toKlineHandler p
    else if eventTypeOf p = "trade" then HopperDispatch.toTradeHandler p
    else HopperDispatch.loggedUnsupported

/-- The inner data object of a raw exchange frame. -/
inductive MarketData where
  | trade (tf : TradeFrame)
  | kline (kf : KlineFrame)
deriving DecidableEq

/-- A raw frame delivered to the ingestion dispatcher: either text
`JSON.parse` rejects, or a parsed envelope with an optional `stream`
name and a data object. -/
inductive RawFrame where
  | malformed
  | parsed (stream : Option String) (d : MarketData)
deriving DecidableEq

/-- A thrown JavaScript exception: a `JSON.parse` SyntaxError or a
TypeError from dereferencing `undefined`. -/
inductive JsExn where
  | parseError
  | typeError
deriving DecidableEq

/-- What the ingestion dispatcher does with one frame. -/
inductive IngestResult where
  | silentDrop
  | loggedDrop
  | dispatched (tag : String) (d : MarketData)
deriving DecidableEq

/-- Split a character list at every occurrence of `c` (the JavaScript
`String.prototype.split` on a one-character separator). -/
def splitCharAux (c : Char) : List Char → List Char → List (List Char)
  | [], acc => [acc.reverse]
  | x :: xs, acc =>
    if x = c then acc.reverse :: splitCharAux c xs []
    else splitCharAux c xs (x :: acc)

/-- JavaScript `s.split(c)` for a one-character separator. -/
def jsSplit (s : String) (c : Char) : List String :=
  (splitCharAux c s.data []).map (fun l => String.mk l)

/-- The stream-kind tag extraction `item.stream.split('@')[1]
.split('_')[0]`: `none` when the stream has no `@` separator, in which
case the real code dereferences `undefined` and throws. -/
def streamTag (s : String) : Option String :=
  ((jsSplit s ('@'))[1]?).map (fun seg => List.headD (jsSplit seg ('_')) (""))

/-- The ingestion `handleMessage` of src/services/binance.js lines
145-158: a frame `JSON.parse` rejects throws out of the handler; a
falsy `stream` field returns silently with no log; a stream without `@`
throws a TypeError; otherwise the tag after `@` (up to `_`) picks the
kline or trade callback, and an unknown tag logs
`Not supported stream type` and drops the frame. -/
def binanceHandleMessage (f : RawFrame) : Except JsExn IngestResult :=
  match f with
  | RawFrame.malformed => Except.error JsExn.parseError
  | RawFrame.parsed stream d =>
    match stream with
    | none => Except.ok IngestResult.silentDrop
    | some s =>
      if s = "" then Except.ok IngestResult.silentDrop
      else
        match streamTag s with
        | none => Except.error JsExn.typeError
        | some tag =>
          if tag = "kline" then Except.ok (IngestResult.dispatched tag d)
          else if tag = "trade" then Except.ok (IngestResult.dispatched tag d)
          else Except.ok IngestResult.loggedDrop

/-- Fold the trade sampling of a whole sequence of trade frames from
process start. -/
def runTradeExtrema (trs : List TradeFrame) : ExtremaState :=
  trs.foldl (fun s tr => tradeExtrema tr.E tr.p s) initState

/-- A concrete trade frame used by witnesses: the event timestamp 10 is
on the boundary of the 5s and 10s intervals. -/
def sampleTrade : TradeFrame :=
  { e := "trade", E := 10, s := "BTCUSDT", t := 1, p := 100, q := 2,
    b := 11, a := 12, T := 10, m := false }

/-- A concrete kline frame used by witnesses, with the real-wire string
interval label. -/
def sampleKline : KlineFrame :=
  { e := "kline",
    k := { t := 1000, s := "BTCUSDT", i := JVal.str ("1m"), o := 100, h := 101,
           l := 99, c := 100, v := 5, n := 3, x := true, q := 1, V := 2,
           T := 1500 } }

/-- A concrete inner frame data object used by witnesses. -/
def sampleData : MarketData := MarketData.trade sampleTrade

/-- A concrete queue payload used by cache witnesses. -/
def cachePayload : QueuePayload := QueuePayload.trade (mkTradeObject sampleTrade)

theorem tradeSampleStep_other (ts : ℕ) (p : ℚ) (st : ExtremaState)
    (i : JInterval) (k : String) (hk : jsKey i ≠ k ∨ tsMod ts i ≠ 0) :
    (tradeSampleStep ts p st i).high k = st.high k ∧
    (tradeSampleStep ts p st i).low k = st.low k := by
  by_cases hs : tsMod ts i = 0
  · rcases hk with h | h
    · have hk2 : k ≠ jsKey i := fun hh => h hh.symm
      simp [tradeSampleStep, updateMap, hs, hk2]
    · exact absurd hs h
  · simp [tradeSampleStep, hs]

theorem tradeSampleStep_same (ts : ℕ) (p : ℚ) (st : ExtremaState)
    (i : JInterval) :
    (tradeSampleStep ts p st i).high (jsKey i) =
      (if tsMod ts i = 0
       then some (jmax (jsCoerce (st.high (jsKey i))) (JNum.num p))
       else st.high (jsKey i)) ∧
    (tradeSampleStep ts p st i).low (jsKey i) =
      (if tsMod ts i = 0
       then some (jmin (jsCoerce (st.low (jsKey i))) (JNum.num p))
       else st.low (jsKey i)) := by
  by_cases hs : tsMod ts i = 0 <;> simp [tradeSampleStep, updateMap, hs]

theorem foldl_sample_untouched (ts : ℕ) (p : ℚ) (L : List JInterval)
    (st : ExtremaState) (k : String)
    (h : ∀ i ∈ L, jsKey i ≠ k ∨ tsMod ts i ≠ 0) :
    (L.foldl (tradeSampleStep ts p) st).high k = st.high k ∧
    (L.foldl (tradeSampleStep ts p) st).low k = st.low k := by
  induction L generalizing st with
  | nil => exact ⟨rfl, rfl⟩
  | cons j tl ih =>
    simp only [List.foldl_cons]
    have hstep := tradeSampleStep_other ts p st j k (h j (List.mem_cons_self j tl))
    have hrest := ih (tradeSampleStep ts p st j)
      (fun i hi => h i (List.mem_cons_of_mem j hi))
    exact ⟨hrest.1.trans hstep.1, hrest.2.trans hstep.2⟩

theorem foldl_sample_mem (ts : ℕ) (p : ℚ) (L : List JInterval)
    (st : ExtremaState) (i : JInterval) (hnd : (L.map jsKey).Nodup)
    (hi : i ∈ L) :
    (L.foldl (tradeSampleStep ts p) st).high (jsKey i) =
      (if tsMod ts i = 0
       then some (jmax (jsCoerce (st.high (jsKey i))) (JNum.num p))
       else st.high (jsKey i)) ∧
    (L.foldl (tradeSampleStep ts p) st).low (jsKey i) =
      (if tsMod ts i = 0
       then some (jmin (jsCoerce (st.low (jsKey i))) (JNum.num p))
       else st.low (jsKey i)) := by
  induction L generalizing st with
  | nil => cases hi
  | cons j tl ih =>
    simp only [List.map_cons, List.nodup_cons] at hnd
    rcases List.mem_cons.mp hi with hij | hitl
    · subst hij
      simp only [List.foldl_cons]
      have hrest := foldl_sample_untouched ts p tl (tradeSampleStep ts p st i) (jsKey i)
        (fun j2 hj2 => Or.inl (fun he => hnd.1 (he ▸ List.mem_map_of_mem jsKey hj2)))
      have hsame := tradeSampleStep_same ts p st i
      exact ⟨hrest.1.trans hsame.1, hrest.2.trans hsame.2⟩
    · have hji : jsKey j ≠ jsKey i := by
        intro he
        exact hnd.1 (he ▸ List.mem_map_of_mem jsKey hitl)
      simp only [List.foldl_cons]
      have hstep := tradeSampleStep_other ts p st j (jsKey i) (Or.inl hji)
      have := ih (tradeSampleStep ts p st j) hnd.2 hitl
      rw [hstep.1, hstep.2] at this
      exact this

theorem intervalKeys_nodup : (intervalList.map jsKey).Nodup := by decide

/-- Claim C4: on the trade path, the extrema entry of interval `i` is
updated exactly when `timestamp % i == 0` holds for the event
timestamp; a sampled interval takes `high := max(prev, price)` and
`low := min(prev, price)`, and an unsampled interval is left
unchanged. -/
theorem trade_boundary_sampling_iff (ts : ℕ) (p : ℚ) (st : ExtremaState)
    (i : JInterval) (hi : i ∈ intervalList) :
    (tradeExtrema ts p st).high (jsKey i) =
      (if tsMod ts i = 0
       then some (jmax (jsCoerce (st.high (jsKey i))) (JNum.num p))
       else st.high (jsKey i)) ∧
    (tradeExtrema ts p st).low (jsKey i) =
      (if tsMod ts i = 0
       then some (jmin (jsCoerce (st.low (jsKey i))) (JNum.num p))
       else st.low (jsKey i)) :=
  foldl_sample_mem ts p intervalList st i intervalKeys_nodup hi

/-- Witness for C4 at the sampled interval 5 and the unsampled
interval 15 with timestamp 10. -/
theorem trade_boundary_sampling_iff_witness :
    ((some 5 : JInterval) ∈ intervalList ∧
      (tradeExtrema 10 100 initState).high (jsKey (some 5)) =
        (if tsMod 10 (some 5) = 0
         then some (jmax (jsCoerce (initState.high (jsKey (some 5)))) (JNum.num 100))
         else initState.high (jsKey (some 5)))) ∧
    ((some 15 : JInterval) ∈ intervalList ∧
      (tradeExtrema 10 100 initState).low (jsKey (some 15)) =
        (if tsMod 10 (some 15) = 0
         then some (jmin (jsCoerce (initState.low (jsKey (some 15)))) (JNum.num 100))
         else initState.low (jsKey (some 15)))) :=
  ⟨⟨by decide, (trade_boundary_sampling_iff 10 100 initState (some 5) (by decide)).1⟩,
   ⟨by decide, (trade_boundary_sampling_iff 10 100 initState (some 15) (by decide)).2⟩⟩

theorem finite_keys_ne_inf :
    ∀ i ∈ intervalList, i = none ∨ jsKey i ≠ jsKey none := by decide

theorem tradeExtrema_inf_key (ts : ℕ) (hts : ts ≠ 0) (p : ℚ)
    (st : ExtremaState) :
    (tradeExtrema ts p st).high (jsKey none) = st.high (jsKey none) ∧
    (tradeExtrema ts p st).low (jsKey none) = st.low (jsKey none) := by
  apply foldl_sample_untouched
  intro i hi
  rcases finite_keys_ne_inf i hi with hnone | hne
  · subst hnone
    exact Or.inr hts
  · exact Or.inl hne

theorem runTrades_inf_key (trs : List TradeFrame)
    (h : ∀ tr ∈ trs, 0 < tr.E) (st : ExtremaState) :
    ((trs.foldl (fun s tr => tradeExtrema tr.E tr.p s) st).high (jsKey none)
        = st.high (jsKey none)) ∧
    ((trs.foldl (fun s tr => tradeExtrema tr.E tr.p s) st).low (jsKey none)
        = st.low (jsKey none)) := by
  induction trs generalizing st with
  | nil => exact ⟨rfl, rfl⟩
  | cons tr tl ih =>
    simp only [List.foldl_cons]
    have hstep := tradeExtrema_inf_key tr.E
      (Nat.pos_iff_ne_zero.mp (h tr (List.mem_cons_self tr tl))) tr.p st
    have hrest := ih (fun t2 ht2 => h t2 (List.mem_cons_of_mem tr ht2))
      (tradeExtrema tr.E tr.p st)
    exact ⟨hrest.1.trans hstep.1, hrest.2.trans hstep.2⟩

/-- Claim C10: the boundary predicate for the sentinel infinite
interval holds only at timestamp 0, so over any sequence of trade
events with positive timestamps the unbounded window's entries keep
their initial values. -/
theorem infinite_interval_trade_untouched (trs : List TradeFrame)
    (hpos : ∀ tr ∈ trs, 0 < tr.E) :
    (∀ t : ℕ, tsMod t none = 0 ↔ t = 0) ∧
    (runTradeExtrema trs).high (jsKey none) = initState.high (jsKey none) ∧
    (runTradeExtrema trs).low (jsKey none) = initState.low (jsKey none) :=
  ⟨fun _ => Iff.rfl, (runTrades_inf_key trs hpos initState).1,
   (runTrades_inf_key trs hpos initState).2⟩

/-- Witness for C10 on a two-trade sequence with positive timestamps. -/
theorem infinite_interval_trade_untouched_witness :
    (runTradeExtrema [sampleTrade, { sampleTrade with E := 25 }]).high (jsKey none)
        = initState.high (jsKey none) ∧
    (runTradeExtrema [sampleTrade, { sampleTrade with E := 25 }]).low (jsKey none)
        = initState.low (jsKey none) :=
  ⟨(infinite_interval_trade_untouched [sampleTrade, { sampleTrade with E := 25 }]
      (by decide)).2.1,
   (infinite_interval_trade_untouched [sampleTrade, { sampleTrade with E := 25 }]
      (by decide)).2.2⟩

/-- Claim C2 (code bug): the initial extrema state evaluated at the
failing inputs. The running max of every finite interval starts at
positive infinity (the spec says negative infinity) and the running min
of the sentinel infinite interval starts at negative infinity (the spec
says positive infinity), because both maps are built from the single
initializer `interval === Infinity ? -Infinity : Infinity`. -/
theorem extrema_init_sentinel_facts :
    (some 5 : JInterval) ∈ intervalList ∧ (none : JInterval) ∈ intervalList ∧
    highPrices (jsKey (some 5)) = some JNum.pinf ∧
    lowPrices (jsKey (some 5)) = some JNum.pinf ∧
    highPrices (jsKey none) = some JNum.ninf ∧
    lowPrices (jsKey none) = some JNum.ninf ∧
    highPrices = lowPrices := by
  refine ⟨by decide, by decide, by decide, by decide, by decide, by decide, rfl⟩

/-- Claim C3 counterexample: a kline carrying the string label "5"
addresses the existing extrema entry under key "5", its reported low 99
is strictly below the current low (`+Infinity`), yet the tracker
changes nothing, because the strict-equality `findIndex` guard never
matches a string against the numeric interval array. -/
theorem kline_string_label_not_sampled_cex :
    JNum.ltB (JNum.num 99) (jsCoerce (initState.low (jsKey (some 5)))) = true ∧
    (klineExtrema (JVal.str ("5")) 101 99 initState).low (jsKey (some 5))
      = initState.low (jsKey (some 5)) ∧
    (klineExtrema (JVal.str ("5")) 101 99 initState).low (jsKey (some 5))
      ≠ some (JNum.num 99) ∧
    (klineExtrema (JVal.str ("5")) 101 99 initState).high (jsKey (some 5))
      = initState.high (jsKey (some 5)) := by
  refine ⟨by decide, rfl, by decide, rfl⟩

/-- Claim C3 (amended): the kline tracker samples only when the
kline's interval label is strictly equal to a member of the interval
array, i.e. is that number; a string label (every real Binance label)
or an unknown number updates nothing; a matching numeric label widens
the high under strict `>` and the low under strict `<` at its own key
and leaves every other key unchanged. -/
theorem kline_sampling_requires_strict_member (lab : JVal) (h l : ℚ)
    (st : ExtremaState) :
    (∀ s2, lab = JVal.str s2 → klineExtrema lab h l st = st) ∧
    (∀ n, lab = JVal.num n → n ∉ intervalList → klineExtrema lab h l st = st) ∧
    (∀ n, lab = JVal.num n → n ∈ intervalList →
       ((klineExtrema lab h l st).high (jsKey n) =
          (if jsGtO (JNum.num h) (st.high (jsKey n)) then some (JNum.num h)
           else st.high (jsKey n)) ∧
        (klineExtrema lab h l st).low (jsKey n) =
          (if jsLtO (JNum.num l) (st.low (jsKey n)) then some (JNum.num l)
           else st.low (jsKey n)) ∧
        ∀ k2, k2 ≠ jsKey n →
          (klineExtrema lab h l st).high k2 = st.high k2 ∧
          (klineExtrema lab h l st).low k2 = st.low k2)) := by
  refine ⟨?_, ?_, ?_⟩
  · intro s2 he
    subst he
    rfl
  · intro n he hn
    subst he
    simp [klineExtrema, hn]
  · intro n he hn
    subst he
    refine ⟨?_, ?_, ?_⟩
    · simp [klineExtrema, hn, updateMap]
    · simp [klineExtrema, hn, updateMap]
    · intro k2 hk2
      simp [klineExtrema, hn, updateMap, hk2]

/-- Witness for the amended C3: the string label "1m" changes nothing;
the numeric label 5 is in the set and its low is widened to 99. -/
theorem kline_sampling_requires_strict_member_witness :
    klineExtrema (JVal.str ("1m")) 101 99 initState = initState ∧
    (klineExtrema (JVal.num (some 5)) 101 99 initState).low (jsKey (some 5)) =
      (if jsLtO (JNum.num 99) (initState.low (jsKey (some 5)))
       then some (JNum.num 99) else initState.low (jsKey (some 5))) :=
  ⟨(kline_sampling_requires_strict_member (JVal.str ("1m")) 101 99 initState).1
      ("1m") rfl,
   ((kline_sampling_requires_strict_member (JVal.num (some 5)) 101 99 initState).2.2
      (some 5) rfl (by decide)).2.1⟩

theorem JNum.ltB_trans {a b c : JNum} (h1 : JNum.ltB a b = true)
    (h2 : JNum.ltB b c = true) : JNum.ltB a c = true := by
  cases a <;> cases b <;> cases c <;> simp_all [JNum.ltB]
  exact lt_trans h1 h2

theorem optLe_trans {a b c : Option JNum} (h1 : optLe a b) (h2 : optLe b c) :
    optLe a c := by
  rcases h1 with rfl | ⟨x, y, rfl, rfl, hxy⟩
  · exact h2
  · rcases h2 with heq | ⟨x2, y2, he2, rfl, h2b⟩
    · exact Or.inr ⟨x, y, rfl, heq.symm, hxy⟩
    · obtain rfl : y = x2 := Option.some.inj he2
      exact Or.inr ⟨x, y2, rfl, rfl, JNum.ltB_trans hxy h2b⟩

theorem optGe_trans {a b c : Option JNum} (h1 : optGe a b) (h2 : optGe b c) :
    optGe a c := by
  rcases h1 with rfl | ⟨x, y, rfl, rfl, hxy⟩
  · exact h2
  · rcases h2 with heq | ⟨x2, y2, he2, rfl, h2b⟩
    · exact Or.inr ⟨x, y, rfl, heq.symm, hxy⟩
    · obtain rfl : y = x2 := Option.some.inj he2
      exact Or.inr ⟨x, y2, rfl, rfl, JNum.ltB_trans h2b hxy⟩

theorem jmax_widen (x : JNum) (q : ℚ) :
    jmax x (JNum.num q) = x ∨ JNum.ltB x (jmax x (JNum.num q)) = true := by
  cases x with
  | nan => exact Or.inl rfl
  | pinf => exact Or.inl rfl
  | ninf => exact Or.inr rfl
  | num a =>
    by_cases h : a < q
    · refine Or.inr ?_
      have he : jmax (JNum.num a) (JNum.num q) = JNum.num q := by
        simp [jmax, JNum.ltB, h]
      rw [he]
      simp [JNum.ltB, h]
    · refine Or.inl ?_
      simp [jmax, JNum.ltB, h]

theorem jmin_widen (x : JNum) (q : ℚ) :
    jmin x (JNum.num q) = x ∨ JNum.ltB (jmin x (JNum.num q)) x = true := by
  cases x with
  | nan => exact Or.inl rfl
  | ninf => exact Or.inl rfl
  | pinf => exact Or.inr rfl
  | num a =>
    by_cases h : q < a
    · refine Or.inr ?_
      have he : jmin (JNum.num a) (JNum.num q) = JNum.num q := by
        simp [jmin, JNum.ltB, h]
      rw [he]
      simp [JNum.ltB, h]
    · refine Or.inl ?_
      simp [jmin, JNum.ltB, h]

theorem tradeExtrema_mono (ts : ℕ) (p : ℚ) (st : ExtremaState)
    (hg : goodState st) (k : String) :
    optLe (st.high k) ((tradeExtrema ts p st).high k) ∧
    optGe (st.low k) ((tradeExtrema ts p st).low k) := by
  unfold tradeExtrema
  by_cases hk : ∃ i ∈ intervalList, jsKey i = k
  · obtain ⟨i, hi, rfl⟩ := hk
    have hc := foldl_sample_mem ts p intervalList st i intervalKeys_nodup hi
    obtain ⟨vh, hvh⟩ := Option.isSome_iff_exists.mp (hg i hi).1
    obtain ⟨vl, hvl⟩ := Option.isSome_iff_exists.mp (hg i hi).2
    constructor
    · rw [hc.1]
      by_cases hs : tsMod ts i = 0
      · rw [if_pos hs, hvh]
        show optLe (some vh) (some (jmax (jsCoerce (some vh)) (JNum.num p)))
        rcases jmax_widen vh p with he | hlt
        · exact Or.inl (by rw [show jsCoerce (some vh) = vh from rfl, he])
        · exact Or.inr ⟨vh, jmax vh (JNum.num p), rfl, rfl, hlt⟩
      · rw [if_neg hs]
        exact Or.inl rfl
    · rw [hc.2]
      by_cases hs : tsMod ts i = 0
      · rw [if_pos hs, hvl]
        show optGe (some vl) (some (jmin (jsCoerce (some vl)) (JNum.num p)))
        rcases jmin_widen vl p with he | hlt
        · exact Or.inl (by rw [show jsCoerce (some vl) = vl from rfl, he])
        · exact Or.inr ⟨vl, jmin vl (JNum.num p), rfl, rfl, hlt⟩
      · rw [if_neg hs]
        exact Or.inl rfl
  · push_neg at hk
    have hu := foldl_sample_untouched ts p intervalList st k
      (fun i hi => Or.inl (hk i hi))
    rw [hu.1, hu.2]
    exact ⟨Or.inl rfl, Or.inl rfl⟩

theorem tradeExtrema_good (ts : ℕ) (p : ℚ) (st : ExtremaState)
    (hg : goodState st) : goodState (tradeExtrema ts p st) := by
  intro i hi
  have hc := foldl_sample_mem ts p intervalList st i intervalKeys_nodup hi
  unfold tradeExtrema
  constructor
  · rw [hc.1]
    by_cases hs : tsMod ts i = 0
    · rw [if_pos hs]
      rfl
    · rw [if_neg hs]
      exact (hg i hi).1
  · rw [hc.2]
    by_cases hs : tsMod ts i = 0
    · rw [if_pos hs]
      rfl
    · rw [if_neg hs]
      exact (hg i hi).2

theorem klineExtrema_mono (lab : JVal) (h l : ℚ) (st : ExtremaState)
    (k : String) :
    optLe (st.high k) ((klineExtrema lab h l st).high k) ∧
    optGe (st.low k) ((klineExtrema lab h l st).low k) := by
  cases lab with
  | str s => exact ⟨Or.inl rfl, Or.inl rfl⟩
  | num n =>
    by_cases hn : n ∈ intervalList
    · constructor
      · simp only [klineExtrema, if_pos hn, updateMap]
        by_cases hk : k = jsKey n
        · subst hk
          rw [if_pos rfl]
          by_cases hgt : jsGtO (JNum.num h) (st.high (jsKey n)) = true
          · rw [if_pos hgt]
            cases hcur : st.high (jsKey n) with
            | none =>
              rw [hcur] at hgt
              simp [jsGtO] at hgt
            | some v =>
              rw [hcur] at hgt
              exact Or.inr ⟨v, JNum.num h, rfl, rfl, hgt⟩
          · rw [if_neg hgt]
            exact Or.inl rfl
        · rw [if_neg hk]
          exact Or.inl rfl
      · simp only [klineExtrema, if_pos hn, updateMap]
        by_cases hk : k = jsKey n
        · subst hk
          rw [if_pos rfl]
          by_cases hlt : jsLtO (JNum.num l) (st.low (jsKey n)) = true
          · rw [if_pos hlt]
            cases hcur : st.low (jsKey n) with
            | none =>
              rw [hcur] at hlt
              simp [jsLtO] at hlt
            | some v =>
              rw [hcur] at hlt
              exact Or.inr ⟨v, JNum.num l, rfl, rfl, hlt⟩
          · rw [if_neg hlt]
            exact Or.inl rfl
        · rw [if_neg hk]
          exact Or.inl rfl
    · simp only [klineExtrema, if_neg hn]
      exact ⟨Or.inl rfl, Or.inl rfl⟩

theorem klineExtrema_good (lab : JVal) (h l : ℚ) (st : ExtremaState)
    (hg : goodState st) : goodState (klineExtrema lab h l st) := by
  intro i hi
  cases lab with
  | str s => exact hg i hi
  | num n =>
    by_cases hn : n ∈ intervalList
    · constructor
      · simp only [klineExtrema, if_pos hn, updateMap]
        by_cases hk : jsKey i = jsKey n
        · rw [if_pos hk]
          by_cases hgt : jsGtO (JNum.num h) (st.high (jsKey n)) = true
          · rw [if_pos hgt]
            rfl
          · rw [if_neg hgt]
            exact (hg n hn).1
        · rw [if_neg hk]
          exact (hg i hi).1
      · simp only [klineExtrema, if_pos hn, updateMap]
        by_cases hk : jsKey i = jsKey n
        · rw [if_pos hk]
          by_cases hlt : jsLtO (JNum.num l) (st.low (jsKey n)) = true
          · rw [if_pos hlt]
            rfl
          · rw [if_neg hlt]
            exact (hg n hn).2
        · rw [if_neg hk]
          exact (hg i hi).2
    · simp only [klineExtrema, if_neg hn]
      exact hg i hi

theorem applyOp_mono (st : ExtremaState) (hg : goodState st) (op : MarketOp)
    (k : String) :
    optLe (st.high k) ((applyOp st op).high k) ∧
    optGe (st.low k) ((applyOp st op).low k) := by
  cases op with
  | trade ts p => exact tradeExtrema_mono ts p st hg k
  | kline lab h l => exact klineExtrema_mono lab h l st k

theorem applyOp_good (st : ExtremaState) (hg : goodState st) (op : MarketOp) :
    goodState (applyOp st op) := by
  cases op with
  | trade ts p => exact tradeExtrema_good ts p st hg
  | kline lab h l => exact klineExtrema_good lab h l st hg

theorem runOps_mono_aux (ops : List MarketOp) (st : ExtremaState)
    (hg : goodState st) :
    goodState (runOps st ops) ∧
    ∀ k, optLe (st.high k) ((runOps st ops).high k) ∧
      optGe (st.low k) ((runOps st ops).low k) := by
  induction ops generalizing st with
  | nil => exact ⟨hg, fun _ => ⟨Or.inl rfl, Or.inl rfl⟩⟩
  | cons op tl ih =>
    have h1 := applyOp_good st hg op
    have h2 := ih (applyOp st op) h1
    simp only [runOps, List.foldl_cons] at h2 ⊢
    refine ⟨h2.1, fun k => ?_⟩
    have ha := applyOp_mono st hg op k
    have hb := h2.2 k
    exact ⟨optLe_trans ha.1 hb.1, optGe_trans ha.2 hb.2⟩

theorem goodState_init : goodState initState := by
  unfold goodState
  decide

/-- Claim C5 (amended): along any sequence of trade and kline sampling
operations from process start, every tracked high entry is
monotonically non-decreasing and every tracked low entry monotonically
non-increasing; the claim's two-kline "1m" scenario however does not
leave the tracked high at 101.0 (see the counterexample). -/
theorem extrema_monotone_widening (ops more : List MarketOp) (k : String) :
    optLe ((runOps initState ops).high k)
      ((runOps initState (ops ++ more)).high k) ∧
    optGe ((runOps initState ops).low k)
      ((runOps initState (ops ++ more)).low k) := by
  have h1 := runOps_mono_aux ops initState goodState_init
  have h2 := runOps_mono_aux more (runOps initState ops) h1.1
  have he : runOps initState (ops ++ more)
      = runOps (runOps initState ops) more := by
    simp only [runOps, List.foldl_append]
  rw [he]
  exact h2.2 k

/-- Claim C5 counterexample: two kline events for interval "1m" with
highs 101 then 99 leave no tracked high of 101.0 anywhere; the "1m"
entry stays absent because a string label never passes the strict
`findIndex` guard. -/
theorem kline_scenario_high_not_101_cex :
    (runOps initState [MarketOp.kline (JVal.str ("1m")) 101 100,
        MarketOp.kline (JVal.str ("1m")) 99 98]).high ("1m") = none ∧
    (runOps initState [MarketOp.kline (JVal.str ("1m")) 101 100,
        MarketOp.kline (JVal.str ("1m")) 99 98]).high ("1m")
      ≠ some (JNum.num 101) := by
  refine ⟨rfl, by decide⟩

/-- Claim C6 (code bug): evaluation at the failing input. A failed
trade enqueue (`q1 = fail`) increments `failT` but, because the
callback has no early return, also increments `succT`; the cache
append-and-prune is nonetheless still attempted. The kline path shows
the same double increment of `failK` and `succK`. -/
theorem enqueue_failure_double_count_facts :
    (processTrade sampleTrade initState zeroCounters Outcome.fail Outcome.fail
        Outcome.ok 7200000).counters =
      { succK := 0, succT := 1, failK := 0, failT := 1 } ∧
    (PubAction.cacheAppendPrune (tradeChannel sampleTrade.s) sampleTrade.E
        (QueuePayload.trade (mkTradeObject sampleTrade))
        ((7200000 : ℤ) - (3600000 : ℤ))
      ∈ (processTrade sampleTrade initState zeroCounters Outcome.fail
          Outcome.fail Outcome.ok 7200000).trace) ∧
    (processKline sampleKline initState zeroCounters Outcome.fail Outcome.ok
        7200000).counters =
      { succK := 1, succT := 0, failK := 1, failT := 0 } := by
  refine ⟨by decide, by decide, by decide⟩

/-- Claim C8: immediately after any atomic append-and-prune call, the
channel holds no entry whose score is older than `now` minus the fixed
one-hour retention window. -/
theorem cache_retention_after_append_prune (ch : List CacheEntry)
    (score : ℕ) (p : QueuePayload) (now : ℕ) (e : CacheEntry)
    (he : e ∈ appendPrune ch score p now) :
    ¬ ((e.score : ℤ) < (now : ℤ) - (retentionMs : ℤ)) := by
  intro hlt
  rcases List.mem_filter.mp he with ⟨_, hb⟩
  have h0 : (0 : ℤ) ≤ (e.score : ℤ) := Int.natCast_nonneg e.score
  have hle : (e.score : ℤ) ≤ (now : ℤ) - (retentionMs : ℤ) := le_of_lt hlt
  rw [decide_eq_true h0, decide_eq_true hle] at hb
  simp at hb

/-- Witness for C8: a surviving in-window entry of a concrete channel
after an append-and-prune that evicts a stale entry. -/
theorem cache_retention_after_append_prune_witness :
    (CacheEntry.mk 7200000 cachePayload ∈
      appendPrune [CacheEntry.mk 10 cachePayload,
        CacheEntry.mk 7200000 cachePayload] 7300000 cachePayload 7300000) ∧
    ¬ (((CacheEntry.mk 7200000 cachePayload).score : ℤ)
        < ((7300000 : ℕ) : ℤ) - (retentionMs : ℤ)) :=
  ⟨by decide,
   cache_retention_after_append_prune
     [CacheEntry.mk 10 cachePayload, CacheEntry.mk 7200000 cachePayload]
     7300000 cachePayload 7300000 (CacheEntry.mk 7200000 cachePayload)
     (by decide)⟩

/-- Claim C9 counterexample: an unparseable frame throws a SyntaxError
out of the dispatcher and a parsed frame whose stream field lacks the
"@" separator throws a TypeError, instead of being logged and dropped;
a frame without a stream field is dropped with no log line at all. -/
theorem ingest_malformed_raises_cex :
    binanceHandleMessage RawFrame.malformed = Except.error JsExn.parseError ∧
    binanceHandleMessage (RawFrame.parsed (some ("btcusdt")) sampleData)
      = Except.error JsExn.typeError ∧
    binanceHandleMessage (RawFrame.parsed none sampleData)
      = Except.ok IngestResult.silentDrop :=
  ⟨rfl, rfl, rfl⟩

/-- Claim C9 (amended): a missing or empty stream field is silently
dropped without a log; a stream with an "@" separator but an
unrecognized tag is logged and dropped; a recognized tag dispatches the
inner data object; an unparseable frame or a stream without "@" raises
an exception out of the dispatcher rather than being dropped; none of
these touch any counter (the dispatcher mutates no counter state). -/
theorem ingest_dispatch_behavior (d : MarketData) (s tag : String) :
    (binanceHandleMessage RawFrame.malformed
       = Except.error JsExn.parseError) ∧
    (binanceHandleMessage (RawFrame.parsed none d)
       = Except.ok IngestResult.silentDrop) ∧
    (binanceHandleMessage (RawFrame.parsed (some ("")) d)
       = Except.ok IngestResult.silentDrop) ∧
    (s ≠ "" → streamTag s = none →
       binanceHandleMessage (RawFrame.parsed (some s) d)
         = Except.error JsExn.typeError) ∧
    (s ≠ "" → streamTag s = some tag → tag ≠ "kline" → tag ≠ "trade" →
       binanceHandleMessage (RawFrame.parsed (some s) d)
         = Except.ok IngestResult.loggedDrop) ∧
    (s ≠ "" → streamTag s = some tag → (tag = "kline" ∨ tag = "trade") →
       binanceHandleMessage (RawFrame.parsed (some s) d)
         = Except.ok (IngestResult.dispatched tag d)) := by
  refine ⟨rfl, rfl, rfl, ?_, ?_, ?_⟩
  · intro hs htag
    simp [binanceHandleMessage, hs, htag]
  · intro hs htag hk ht
    simp [binanceHandleMessage, hs, htag, hk, ht]
  · intro hs htag hkt
    rcases hkt with rfl | rfl
    · simp [binanceHandleMessage, hs, htag]
    · simp [binanceHandleMessage, hs, htag]

/-- Witness for the amended C9 at concrete streams: an unsupported
"depth" stream is logged and dropped, a kline stream dispatches, and a
stream without "@" throws. -/
theorem ingest_dispatch_behavior_witness :
    binanceHandleMessage (RawFrame.parsed (some ("btcusdt@depth")) sampleData)
      = Except.ok IngestResult.loggedDrop ∧
    binanceHandleMessage (RawFrame.parsed (some ("btcusdt@kline_1m")) sampleData)
      = Except.ok (IngestResult.dispatched ("kline") sampleData) ∧
    binanceHandleMessage (RawFrame.parsed (some ("btcusdt")) sampleData)
      = Except.error JsExn.typeError :=
  ⟨(ingest_dispatch_behavior sampleData ("btcusdt@depth") ("depth")).2.2.2.2.1
      (by decide) (by decide) (by decide) (by decide),
   (ingest_dispatch_behavior sampleData ("btcusdt@kline_1m") ("kline")).2.2.2.2.2
      (by decide) (by decide) (Or.inl rfl),
   (ingest_dispatch_behavior sampleData ("btcusdt") ("")).2.2.2.1
      (by decide) (by decide)⟩

/-- Claim C1: a delivered queue message whose embedded canonical event
has event kind trade (resp. kline) is decoded through the outer
envelope and forwarded to the time-series trade (resp. kline) writer;
in particular, the canonical records the ingestion publisher enqueues
are exactly such payloads, so they reach the matching handler when
consumed. -/
theorem consumer_dispatch_routes_by_event_kind (p : QueuePayload) :
    (eventTypeOf p = "trade" →
       hopperHandleMessage (mqEnvelope p) = HopperDispatch.toTradeHandler p) ∧
    (eventTypeOf p = "kline" →
       hopperHandleMessage (mqEnvelope p) = HopperDispatch.toKlineHandler p) ∧
    (∀ tf : TradeFrame, ∀ st c q1 cache q2 now,
       PubAction.enqueue wsBinance (QueuePayload.trade (mkTradeObject tf)) 0 0
         ∈ (processTrade tf st c q1 cache q2 now).trace) ∧
    (∀ tf : TradeFrame, tf.e = "trade" →
       hopperHandleMessage (mqEnvelope (QueuePayload.trade (mkTradeObject tf)))
         = HopperDispatch.toTradeHandler (QueuePayload.trade (mkTradeObject tf))) ∧
    (∀ kf : KlineFrame, ∀ st c q cache now,
       PubAction.enqueue wsBinance (QueuePayload.kline (mkKlineObject kf)) 0 300
         ∈ (processKline kf st c q cache now).trace) ∧
    (∀ kf : KlineFrame, kf.e = "kline" →
       hopperHandleMessage (mqEnvelope (QueuePayload.kline (mkKlineObject kf)))
         = HopperDispatch.toKlineHandler (QueuePayload.kline (mkKlineObject kf))) := by
  refine ⟨?_, ?_, ?_, ?_, ?_, ?_⟩
  · intro h
    simp [hopperHandleMessage, mqEnvelope, h]
  · intro h
    simp [hopperHandleMessage, mqEnvelope, h]
  · intro tf st c q1 cache q2 now
    cases cache <;> cases q1 <;> cases q2 <;>
      simp [processTrade, tradeEnqueueCb]
  · intro tf h
    simp [hopperHandleMessage, mqEnvelope, eventTypeOf, mkTradeObject, h]
  · intro kf st c q cache now
    cases cache <;> cases q <;> simp [processKline, klineEnqueueCb]
  · intro kf h
    simp [hopperHandleMessage, mqEnvelope, eventTypeOf, mkKlineObject, h]

/-- Witness for C1 on concrete canonical trade and kline events. -/
theorem consumer_dispatch_routes_by_event_kind_witness :
    hopperHandleMessage (mqEnvelope (QueuePayload.trade (mkTradeObject sampleTrade)))
      = HopperDispatch.toTradeHandler (QueuePayload.trade (mkTradeObject sampleTrade)) ∧
    hopperHandleMessage (mqEnvelope (QueuePayload.kline (mkKlineObject sampleKline)))
      = HopperDispatch.toKlineHandler (QueuePayload.kline (mkKlineObject sampleKline)) ∧
    PubAction.enqueue wsBinance (QueuePayload.trade (mkTradeObject sampleTrade)) 0 0
      ∈ (processTrade sampleTrade initState zeroCounters Outcome.ok Outcome.ok
          Outcome.ok 7200000).trace :=
  ⟨(consumer_dispatch_routes_by_event_kind
      (QueuePayload.trade (mkTradeObject sampleTrade))).2.2.2.1 sampleTrade rfl,
   (consumer_dispatch_routes_by_event_kind
      (QueuePayload.kline (mkKlineObject sampleKline))).2.2.2.2.2 sampleKline rfl,
   (consumer_dispatch_routes_by_event_kind
      (QueuePayload.trade (mkTradeObject sampleTrade))).2.2.1 sampleTrade
      initState zeroCounters Outcome.ok Outcome.ok Outcome.ok 7200000⟩

theorem intervalList_nodup : intervalList.Nodup := by decide

theorem countP_snapFor_self (ts : ℕ) (sym : String) (st1 : ExtremaState)
    (i : JInterval) :
    (snapFor ts sym st1 i).countP (isSnapFor i) =
      (if tsMod ts i = 0 then 2 else 0) := by
  by_cases hs : tsMod ts i = 0 <;> simp [snapFor, hs, isSnapFor]

theorem countP_snapFor_other (ts : ℕ) (sym : String) (st1 : ExtremaState)
    (i j : JInterval) (hne : j ≠ i) :
    (snapFor ts sym st1 j).countP (isSnapFor i) = 0 := by
  by_cases hs : tsMod ts j = 0 <;> simp [snapFor, hs, isSnapFor, hne]

theorem countP_snap_flat_zero (ts : ℕ) (sym : String) (st1 : ExtremaState)
    (L : List JInterval) (i : JInterval) (hi : i ∉ L) :
    (L.flatMap (snapFor ts sym st1)).countP (isSnapFor i) = 0 := by
  induction L with
  | nil => rfl
  | cons j tl ih =>
    rw [List.flatMap_cons, List.countP_append]
    rw [countP_snapFor_other ts sym st1 i j
        (fun he => hi (he ▸ List.mem_cons_self j tl)),
      ih (fun ht => hi (List.mem_cons_of_mem j ht))]

theorem countP_snap_flat (ts : ℕ) (sym : String) (st1 : ExtremaState)
    (L : List JInterval) (hnd : L.Nodup) (i : JInterval) (hi : i ∈ L) :
    (L.flatMap (snapFor ts sym st1)).countP (isSnapFor i) =
      (if tsMod ts i = 0 then 2 else 0) := by
  induction L with
  | nil => cases hi
  | cons j tl ih =>
    rw [List.nodup_cons] at hnd
    rw [List.flatMap_cons, List.countP_append]
    rcases List.mem_cons.mp hi with hij | hitl
    · subst hij
      rw [countP_snapFor_self, countP_snap_flat_zero ts sym st1 tl i hnd.1]
      simp
    · rw [countP_snapFor_other ts sym st1 i j
          (fun he => (he ▸ hnd.1 : i ∈ tl → False) hitl), ih hnd.2 hitl]
      simp

theorem countP_snapActions (ts : ℕ) (sym : String) (st1 : ExtremaState)
    (i : JInterval) (hi : i ∈ intervalList) :
    (snapActions ts sym st1).countP (isSnapFor i) =
      (if tsMod ts i = 0 then 2 else 0) :=
  countP_snap_flat ts sym st1 intervalList intervalList_nodup i hi

theorem snapActions_all_cacheSet (ts : ℕ) (sym : String) (st1 : ExtremaState) :
    ∀ a ∈ snapActions ts sym st1, isCacheSetB a = true := by
  intro a ha
  rcases List.mem_flatMap.mp ha with ⟨i, _, hai⟩
  by_cases hs : tsMod ts i = 0
  · rw [snapFor, if_pos hs] at hai
    simp only [List.mem_cons, List.mem_singleton] at hai
    rcases hai with rfl | rfl | hfalse
    · rfl
    · rfl
    · cases hfalse
  · rw [snapFor, if_neg hs] at hai
    cases hai

theorem cacheSet_not_dup (a : PubAction) (tf : TradeFrame)
    (h : isCacheSetB a = true) : (decide (a = dupEnqueue tf)) = false := by
  cases a <;> simp_all [isCacheSetB, dupEnqueue]

theorem countP_snapActions_dup_zero (ts : ℕ) (sym : String)
    (st1 : ExtremaState) (tf : TradeFrame) :
    (snapActions ts sym st1).countP (fun a => decide (a = dupEnqueue tf)) = 0 :=
  List.countP_eq_zero.mpr (fun a ha => by
    rw [cacheSet_not_dup a tf (snapActions_all_cacheSet ts sym st1 a ha)]
    exact Bool.false_ne_true)

theorem enq0_not_dup (tf : TradeFrame) (q : String) (p : QueuePayload) :
    (decide (PubAction.enqueue q p 0 0 = dupEnqueue tf)) = false := by
  simp [dupEnqueue]

theorem logError_not_dup (tf : TradeFrame) (m : String) :
    (decide (PubAction.logError m = dupEnqueue tf)) = false := by
  simp [dupEnqueue]

theorem cacheAP_not_dup (tf : TradeFrame) (ch : String) (sc : ℕ)
    (pl : QueuePayload) (ct : ℤ) :
    (decide (PubAction.cacheAppendPrune ch sc pl ct = dupEnqueue tf)) = false := by
  simp [dupEnqueue]

theorem dup_eq_dup (tf : TradeFrame) :
    (decide (dupEnqueue tf = dupEnqueue tf)) = true := by
  simp

theorem processTrade_ok_trace (tf : TradeFrame) (st : ExtremaState)
    (c : Counters) (q1 q2 : Outcome) (now : ℕ) :
    (processTrade tf st c q1 Outcome.ok q2 now).trace =
      [PubAction.enqueue wsBinance (QueuePayload.trade (mkTradeObject tf)) 0 0]
        ++ (tradeEnqueueCb c q1).2
        ++ [PubAction.cacheAppendPrune (tradeChannel tf.s) tf.E
              (QueuePayload.trade (mkTradeObject tf)) ((now : ℤ) - 3600000)]
        ++ snapActions tf.E tf.s (tradeExtrema tf.E tf.p st)
        ++ [dupEnqueue tf]
        ++ (tradeEnqueueCb (tradeEnqueueCb c q1).1 q2).2 := rfl

theorem processTrade_fail_trace (tf : TradeFrame) (st : ExtremaState)
    (c : Counters) (q1 q2 : Outcome) (now : ℕ) :
    (processTrade tf st c q1 Outcome.fail q2 now).trace =
      [PubAction.enqueue wsBinance (QueuePayload.trade (mkTradeObject tf)) 0 0]
        ++ (tradeEnqueueCb c q1).2
        ++ [PubAction.cacheAppendPrune (tradeChannel tf.s) tf.E
              (QueuePayload.trade (mkTradeObject tf)) ((now : ℤ) - 3600000)]
        ++ [PubAction.logError ("Error processing trade")] := rfl

/-- Claim C7: when the cache append-and-prune succeeds, the publisher
performs exactly one high/low snapshot write pair per interval that was
sampled for the trade (and none for unsampled intervals) and exactly
one duplicate enqueue of the same canonical trade with a 300 ms delay;
when the cache write fails, no snapshot write and no delayed duplicate
enqueue happen and the error is logged. -/
theorem trade_cache_ok_snapshots_and_dup (tf : TradeFrame) (st : ExtremaState)
    (c : Counters) (q1 q2 : Outcome) (now : ℕ) :
    (∀ i ∈ intervalList,
       countSnapPairs (processTrade tf st c q1 Outcome.ok q2 now).trace i =
         (if tsMod tf.E i = 0 then 2 else 0) ∧
       (tsMod tf.E i = 0 →
          PubAction.cacheSet (highKey i tf.s)
              { interval := i,
                price := (tradeExtrema tf.E tf.p st).high (jsKey i) }
            ∈ (processTrade tf st c q1 Outcome.ok q2 now).trace ∧
          PubAction.cacheSet (lowKey i tf.s)
              { interval := i,
                price := (tradeExtrema tf.E tf.p st).low (jsKey i) }
            ∈ (processTrade tf st c q1 Outcome.ok q2 now).trace)) ∧
    countDelayedDup (processTrade tf st c q1 Outcome.ok q2 now).trace tf = 1 ∧
    ((processTrade tf st c q1 Outcome.fail q2 now).trace.countP isCacheSetB
       = 0) ∧
    countDelayedDup (processTrade tf st c q1 Outcome.fail q2 now).trace tf
      = 0 ∧
    PubAction.logError ("Error processing trade")
      ∈ (processTrade tf st c q1 Outcome.fail q2 now).trace := by
  refine ⟨?_, ?_, ?_, ?_, ?_⟩
  · intro i hi
    constructor
    · rw [countSnapPairs, processTrade_ok_trace]
      rw [List.countP_append, List.countP_append, List.countP_append,
        List.countP_append, List.countP_append]
      rw [countP_snapActions tf.E tf.s (tradeExtrema tf.E tf.p st) i hi]
      cases q1 <;> cases q2 <;> simp [tradeEnqueueCb, isSnapFor, dupEnqueue]
    · intro hs
      have hh : PubAction.cacheSet (highKey i tf.s)
          { interval := i, price := (tradeExtrema tf.E tf.p st).high (jsKey i) }
          ∈ snapActions tf.E tf.s (tradeExtrema tf.E tf.p st) :=
        List.mem_flatMap.mpr ⟨i, hi, by simp [snapFor, hs]⟩
      have hl : PubAction.cacheSet (lowKey i tf.s)
          { interval := i, price := (tradeExtrema tf.E tf.p st).low (jsKey i) }
          ∈ snapActions tf.E tf.s (tradeExtrema tf.E tf.p st) :=
        List.mem_flatMap.mpr ⟨i, hi, by simp [snapFor, hs]⟩
      rw [processTrade_ok_trace]
      constructor
      · simp only [List.mem_append]
        tauto
      · simp only [List.mem_append]
        tauto
  · rw [countDelayedDup, processTrade_ok_trace]
    have hz := countP_snapActions_dup_zero tf.E tf.s
      (tradeExtrema tf.E tf.p st) tf
    cases q1 <;> cases q2 <;>
      simp [tradeEnqueueCb, List.countP_append, List.countP_cons,
        List.countP_nil, hz, enq0_not_dup, logError_not_dup, cacheAP_not_dup,
        dup_eq_dup]
  · rw [processTrade_fail_trace]
    cases q1 <;>
      simp [tradeEnqueueCb, List.countP_append, isCacheSetB]
  · rw [countDelayedDup, processTrade_fail_trace]
    cases q1 <;>
      simp [tradeEnqueueCb, List.countP_append, List.countP_cons,
        List.countP_nil, enq0_not_dup, logError_not_dup, cacheAP_not_dup]
  · rw [processTrade_fail_trace]
    simp

/-- Witness for C7 on a concrete trade: the 5s interval is sampled at
timestamp 10, gets exactly one snapshot pair, and exactly one delayed
duplicate enqueue happens. -/
theorem trade_cache_ok_snapshots_and_dup_witness :
    countSnapPairs (processTrade sampleTrade initState zeroCounters Outcome.ok
        Outcome.ok Outcome.ok 7200000).trace (some 5) =
      (if tsMod sampleTrade.E (some 5) = 0 then 2 else 0) ∧
    countDelayedDup (processTrade sampleTrade initState zeroCounters Outcome.ok
        Outcome.ok Outcome.ok 7200000).trace sampleTrade = 1 ∧
    PubAction.cacheSet (highKey (some 5) sampleTrade.s)
        { interval := some 5,
          price := (tradeExtrema sampleTrade.E sampleTrade.p initState).high
            (jsKey (some 5)) }
      ∈ (processTrade sampleTrade initState zeroCounters Outcome.ok Outcome.ok
          Outcome.ok 7200000).trace :=
  ⟨((trade_cache_ok_snapshots_and_dup sampleTrade initState zeroCounters
      Outcome.ok Outcome.ok 7200000).1 (some 5) (by decide)).1,
   (trade_cache_ok_snapshots_and_dup sampleTrade initState zeroCounters
      Outcome.ok Outcome.ok 7200000).2.1,
   ((((trade_cache_ok_snapshots_and_dup sampleTrade initState zeroCounters
      Outcome.ok Outcome.ok 7200000).1 (some 5) (by decide)).2) (by decide)).1⟩
